import Mathlib

/-!
Verification of the terminal-UI core of `rust-geojson-mapper` (`src/main.rs`).

Strings are modelled as lists of Unicode scalar values (`List Nat`); raw
ncurses key codes are modelled as `Int` (the C `i32` returned by `getch`).
Rust's per-character ASCII case mapping is modelled by `lowerChar` /
`upperChar`.  Each definition below is a direct translation of the Rust item
named in its doc comment.
-/

/-- ASCII lowercasing of one character code, the model of Rust
`str::to_lowercase` applied character by character (`main.rs`,
`fuzzy_match`). -/
def lowerChar (c : Nat) : Nat :=
  if 65 ≤ c ∧ c ≤ 90 then c + 32 else c

/-- ASCII uppercasing of one character code, the model of Rust
`str::to_uppercase` applied character by character. -/
def upperChar (c : Nat) : Nat :=
  if 97 ≤ c ∧ c ≤ 122 then c - 32 else c

/-- Convert a Lean string literal to its list of character codes (used only
to write concrete inputs and the fixed filename suffixes). -/
def str (s : String) : List Nat :=
  s.data.map Char.toNat

/-- The inner scan of `fuzzy_match` (`main.rs` lines 282-298): walk the
pattern left to right and, for each pattern character, consume text
characters until an equal one is found; fail when the text iterator is
exhausted first.  The text cursor never resets. -/
def fuzzyLoop : List Nat → List Nat → Bool
  | [], _ => true
  | _ :: _, [] => false
  | p :: ps, t :: ts => if t = p then fuzzyLoop ps ts else fuzzyLoop (p :: ps) ts

/-- Model of `fuzzy_match(pattern, text)` (`main.rs` lines 274-300): an empty
pattern matches everything; otherwise both strings are lowercased and the
forward scan `fuzzyLoop` is run. -/
def fuzzy_match (pattern text : List Nat) : Bool :=
  if pattern = [] then true
  else fuzzyLoop (pattern.map lowerChar) (text.map lowerChar)

theorem fuzzyLoop_iff_sublist (ps ts : List Nat) :
    fuzzyLoop ps ts = true ↔ List.Sublist ps ts := by
  induction ts generalizing ps with
  | nil =>
    cases ps with
    | nil => simp [fuzzyLoop]
    | cons p ps => simp [fuzzyLoop]
  | cons t ts ih =>
    cases ps with
    | nil => simp [fuzzyLoop, List.nil_sublist]
    | cons p ps =>
      by_cases h : t = p
      · subst h
        rw [fuzzyLoop]
        simp [ih, List.cons_sublist_cons]
      · rw [fuzzyLoop]
        simp only [if_neg h]
        rw [ih, List.cons_sublist_cons']
        constructor
        · intro hs
          exact Or.inl hs
        · rintro (hs | ⟨hpt, _⟩)
          · exact hs
          · exact absurd hpt.symm h

/-- C1: `fuzzy_match p t` is true exactly when the characters of `p`, after
case-folding both strings, occur in order (not necessarily contiguously) as a
subsequence of the case-folded `t`; this captures the forward-only scan of
the pattern over the text. -/
theorem fuzzy_match_iff_subsequence (p t : List Nat) :
    fuzzy_match p t = true ↔ List.Sublist (p.map lowerChar) (t.map lowerChar) := by
  unfold fuzzy_match
  by_cases hp : p = []
  · subst hp
    simp [List.nil_sublist]
  · rw [if_neg hp]
    exact fuzzyLoop_iff_sublist _ _

theorem lowerChar_upperChar (c : Nat) : lowerChar (upperChar c) = lowerChar c := by
  unfold lowerChar upperChar
  split_ifs <;> omega

theorem lowerChar_lowerChar (c : Nat) : lowerChar (lowerChar c) = lowerChar c := by
  unfold lowerChar
  split_ifs <;> omega

/-- C9: the empty pattern matches every text, and the matcher is
case-insensitive: matching `p` against `t` gives the same answer as matching
the uppercased `p` against the lowercased `t`. -/
theorem fuzzy_match_empty_and_case_insensitive (p t u : List Nat) :
    fuzzy_match [] u = true ∧
      fuzzy_match p t = fuzzy_match (p.map upperChar) (t.map lowerChar) := by
  refine ⟨rfl, ?_⟩
  unfold fuzzy_match
  by_cases hp : p = []
  · subst hp
    simp
  · rw [if_neg hp, if_neg (by simpa using hp)]
    rw [List.map_map, List.map_map]
    have h1 : lowerChar ∘ upperChar = lowerChar := funext lowerChar_upperChar
    have h2 : lowerChar ∘ lowerChar = lowerChar := funext lowerChar_lowerChar
    rw [h1, h2]

/-- Orientation of a layout frame (`main.rs` `enum LayoutKind`): `Vert`
stacks children vertically, `Horz` flows them horizontally. -/
inductive LayoutKind
  | Vert
  | Horz
deriving DecidableEq

/-- Integer 2-D point/size (`main.rs` `struct Vec2`, an `i32` pair). -/
structure Vec2 where
  x : Int
  y : Int
deriving DecidableEq

/-- Component-wise addition (`impl Add for Vec2`). -/
def Vec2.add (a b : Vec2) : Vec2 :=
  ⟨a.x + b.x, a.y + b.y⟩

/-- Component-wise multiplication (`impl Mul for Vec2`). -/
def Vec2.mul (a b : Vec2) : Vec2 :=
  ⟨a.x * b.x, a.y * b.y⟩

/-- One layout frame (`main.rs` `struct Layout`): orientation, origin `pos`
and accumulated extent `size`. -/
structure Layout where
  kind : LayoutKind
  pos : Vec2
  size : Vec2
deriving DecidableEq

/-- Model of `Layout::available_pos` (`main.rs` lines 82-88): origin plus the
extent projected along the frame growth axis. -/
def Layout.available_pos (l : Layout) : Vec2 :=
  match l.kind with
  | LayoutKind.Horz => l.pos.add (l.size.mul ⟨1, 0⟩)
  | LayoutKind.Vert => l.pos.add (l.size.mul ⟨0, 1⟩)

/-- Model of `Layout::add_widget` (`main.rs` lines 90-102): grow the extent
by the child size according to the orientation. -/
def Layout.add_widget (l : Layout) (size : Vec2) : Layout :=
  match l.kind with
  | LayoutKind.Horz => { l with size := ⟨l.size.x + size.x, max l.size.y size.y⟩ }
  | LayoutKind.Vert => { l with size := ⟨max l.size.x size.x, l.size.y + size.y⟩ }

/-- Model of `Ui::end` (`main.rs` lines 239-243): pop the last (innermost)
frame off the layout stack; `none` models the `expect` panic, which fires
only when the stack is empty. -/
def ui_end (layouts : List Layout) : Option (List Layout) :=
  match layouts with
  | [] => none
  | l :: ls => some ((l :: ls).dropLast)

/-- C5: a vertically stacked frame grows by `width = max(width, w)` and
`height += h`, a horizontally flowed frame by `width += w` and
`height = max(height, h)`; and the next available position is the origin
shifted by the extent along the frame's own growth axis: `(pos.x, pos.y +
size.y)` for a stacked frame (`origin + extent * (0,1)`) and `(pos.x +
size.x, pos.y)` for a flowed frame (`origin + extent * (1,0)`). -/
theorem layout_growth_and_available_pos (l : Layout) (s : Vec2) :
    (l.kind = LayoutKind.Vert →
      (l.add_widget s).size = ⟨max l.size.x s.x, l.size.y + s.y⟩ ∧
      l.available_pos = ⟨l.pos.x, l.pos.y + l.size.y⟩) ∧
    (l.kind = LayoutKind.Horz →
      (l.add_widget s).size = ⟨l.size.x + s.x, max l.size.y s.y⟩ ∧
      l.available_pos = ⟨l.pos.x + l.size.x, l.pos.y⟩) := by
  obtain ⟨k, ⟨px, py⟩, ⟨sx, sy⟩⟩ := l
  cases k <;>
    simp [Layout.add_widget, Layout.available_pos, Vec2.add, Vec2.mul]

/-- Witness for C5 at a concrete stacked frame and a concrete child size. -/
theorem layout_growth_witness :
    (Layout.add_widget ⟨LayoutKind.Vert, ⟨2, 3⟩, ⟨4, 5⟩⟩ ⟨7, 1⟩).size =
        ⟨max 4 7, 5 + 1⟩ ∧
      Layout.available_pos ⟨LayoutKind.Vert, ⟨2, 3⟩, ⟨4, 5⟩⟩ = ⟨2, 3 + 5⟩ :=
  (layout_growth_and_available_pos ⟨LayoutKind.Vert, ⟨2, 3⟩, ⟨4, 5⟩⟩ ⟨7, 1⟩).1 rfl

/-- Counterexample to C6 as stated: with two frames open, `Ui::end` does not
fail; it silently pops the top (innermost) frame and leaves the root. -/
theorem ui_end_counterexample :
    ui_end [⟨LayoutKind.Vert, ⟨0, 0⟩, ⟨0, 0⟩⟩, ⟨LayoutKind.Horz, ⟨0, 0⟩, ⟨0, 0⟩⟩] =
        some [⟨LayoutKind.Vert, ⟨0, 0⟩, ⟨0, 0⟩⟩] ∧
      ui_end [⟨LayoutKind.Vert, ⟨0, 0⟩, ⟨0, 0⟩⟩, ⟨LayoutKind.Horz, ⟨0, 0⟩, ⟨0, 0⟩⟩] ≠
        none := by
  decide

/-- C6 amended: `Ui::end` fails (panics) only when the layout stack is empty;
on any non-empty stack it succeeds and removes the last (innermost) frame,
even when more than one frame is open. -/
theorem ui_end_pop_last :
    ui_end ([] : List Layout) = none ∧
      ∀ (ls : List Layout) (l : Layout), ui_end (ls ++ [l]) = some ls := by
  refine ⟨rfl, fun ls l => ?_⟩
  cases ls with
  | nil => rfl
  | cons a as =>
    show some ((a :: (as ++ [l])).dropLast) = some (a :: as)
    rw [← List.cons_append, List.dropLast_concat]

/-- Selection clamp run before the scroll rules (`main.rs` lines 468-470):
`if selected >= len { selected = max(0, len.saturating_sub(1)) }`. -/
def clampSelection (selection total : Nat) : Nat :=
  if selection ≥ total then total - 1 else selection

/-- Scroll rule 1 (`main.rs` lines 472-476): scroll down to keep the
selection the last visible row, only when the viewport is non-empty. -/
def scrollRuleDown (selection scroll viewport : Nat) : Nat :=
  if selection ≥ scroll + viewport ∧ viewport > 0 then selection - viewport + 1
  else scroll

/-- Scroll rule 2 (`main.rs` lines 477-479): scroll up to keep the selection
the first visible row. -/
def scrollRuleUp (selection scroll : Nat) : Nat :=
  if selection < scroll then selection else scroll

/-- Scroll rules 3 and 4 (`main.rs` lines 480-484): no scrolling when the
whole list fits, otherwise clamp to the last full page
(`len.saturating_sub(viewport)`). -/
def scrollRuleClamp (scroll viewport total : Nat) : Nat :=
  if total ≤ viewport then 0
  else if scroll > total - viewport then total - viewport
  else scroll

/-- One pass of the per-frame scroll-window algorithm (`main.rs` lines
467-484), returning the final `(selected_file_index, scroll_offset)`. -/
def scrollAdjust (selection scroll viewport total : Nat) : Nat × Nat :=
  let sel := clampSelection selection total
  (sel, scrollRuleClamp (scrollRuleUp sel (scrollRuleDown sel scroll viewport)) viewport total)

/-- Counterexample to C2 as stated: starting from selection 0, scroll 0,
viewport height 0 and total 1 (selection already below total), the pass
leaves `(selection, scroll) = (0, 0)`; `total > viewport_height` holds, yet
`selection < scroll + viewport_height` fails, so the claimed window property
is violated whenever the viewport height is 0. -/
theorem scroll_invariant_counterexample :
    ¬(1 ≤ 0 ∨ ((scrollAdjust 0 0 0 1).2 ≤ (scrollAdjust 0 0 0 1).1 ∧
      (scrollAdjust 0 0 0 1).1 < (scrollAdjust 0 0 0 1).2 + 0)) := by
  decide

/-- C2 amended: for every state produced by one pass of the scroll-window
algorithm, if `total > viewport_height` AND `viewport_height > 0` then
`scroll <= selection < scroll + viewport_height` and
`scroll <= total - viewport_height`; and if `total <= viewport_height` then
`scroll = 0`.  (The original claim omitted `viewport_height > 0` in the
first case, which fails for a degenerate zero-height viewport.) -/
theorem scroll_invariant (selection scroll viewport total : Nat) :
    (total > viewport → viewport > 0 →
      (scrollAdjust selection scroll viewport total).2 ≤
          (scrollAdjust selection scroll viewport total).1 ∧
        (scrollAdjust selection scroll viewport total).1 <
          (scrollAdjust selection scroll viewport total).2 + viewport ∧
        (scrollAdjust selection scroll viewport total).2 ≤ total - viewport) ∧
    (total ≤ viewport → (scrollAdjust selection scroll viewport total).2 = 0) := by
  simp only [scrollAdjust, clampSelection, scrollRuleDown, scrollRuleUp, scrollRuleClamp]
  split_ifs <;> simp_all <;> omega

/-- Witness for C2 at selection 5, scroll 0, viewport 3, total 10: the pass
scrolls down to 3 and the window property holds there. -/
theorem scroll_invariant_witness :
    (scrollAdjust 5 0 3 10).2 ≤ (scrollAdjust 5 0 3 10).1 ∧
      (scrollAdjust 5 0 3 10).1 < (scrollAdjust 5 0 3 10).2 + 3 ∧
      (scrollAdjust 5 0 3 10).2 ≤ 10 - 3 :=
  (scroll_invariant 5 0 3 10).1 (by decide) (by decide)

/-- Left-arrow key code (ncurses `KEY_LEFT`). -/
def KEY_LEFT : Int := 260

/-- Right-arrow key code (ncurses `KEY_RIGHT`). -/
def KEY_RIGHT : Int := 261

/-- Backspace key code (ncurses `KEY_BACKSPACE`). -/
def KEY_BACKSPACE : Int := 263

/-- Delete-forward key code (ncurses `KEY_DC`). -/
def KEY_DC : Int := 330

/-- The key dispatch of `Ui::edit_field` (`main.rs` lines 177-216), applied
after the cursor clamp: printable ASCII codes 32..=126 are inserted at the
cursor (pushed when the cursor is at the end), arrows move the cursor,
backspace deletes before it, delete removes at it, and any other key leaves
the field untouched. -/
def edit_field_key (buffer : List Nat) (cursor : Nat) (key : Option Int) :
    List Nat × Nat :=
  match key with
  | none => (buffer, cursor)
  | some k =>
    if 32 ≤ k ∧ k ≤ 126 then
      if cursor ≥ buffer.length then (buffer ++ [k.toNat], cursor + 1)
      else (buffer.insertIdx cursor k.toNat, cursor + 1)
    else if k = KEY_LEFT then
      (buffer, if cursor > 0 then cursor - 1 else cursor)
    else if k = KEY_RIGHT then
      (buffer, if cursor < buffer.length then cursor + 1 else cursor)
    else if k = KEY_BACKSPACE then
      if cursor > 0 then
        ((if cursor - 1 < buffer.length then buffer.eraseIdx (cursor - 1) else buffer),
          cursor - 1)
      else (buffer, cursor)
    else if k = KEY_DC then
      ((if cursor < buffer.length then buffer.eraseIdx cursor else buffer), cursor)
    else (buffer, cursor)

/-- Model of `Ui::edit_field` (`main.rs` lines 160-216, state-mutating part):
first clamp the cursor into `[0, len]` (`if *cursor > buffer.len()`), then
apply the pending key. -/
def edit_field (buffer : List Nat) (cursor : Nat) (key : Option Int) :
    List Nat × Nat :=
  edit_field_key buffer (if cursor > buffer.length then buffer.length else cursor) key

/-- Model of a finite sequence of `Ui::edit_field` calls, one pending key per
frame. -/
def applyEdits (keys : List (Option Int)) (buffer : List Nat) (cursor : Nat) :
    List Nat × Nat :=
  match keys with
  | [] => (buffer, cursor)
  | k :: ks => applyEdits ks (edit_field buffer cursor k).1 (edit_field buffer cursor k).2

theorem insertIdx_take_drop {α : Type} (n : Nat) (a : α) (l : List α)
    (h : n ≤ l.length) : l.insertIdx n a = l.take n ++ a :: l.drop n := by
  induction l generalizing n with
  | nil =>
    have hn : n = 0 := Nat.le_zero.mp (by simpa using h)
    subst hn
    rfl
  | cons x xs ih =>
    cases n with
    | zero => rfl
    | succ m =>
      simp only [List.insertIdx_succ_cons, List.take_succ_cons, List.drop_succ_cons,
        List.cons_append]
      rw [ih m (by simpa using h)]

theorem edit_field_eq_key (buffer : List Nat) (cursor : Nat) (key : Option Int)
    (h : cursor ≤ buffer.length) :
    edit_field buffer cursor key = edit_field_key buffer cursor key := by
  unfold edit_field
  rw [if_neg (by omega)]

theorem edit_field_key_printable (buffer : List Nat) (cursor : Nat)
    (h : cursor ≤ buffer.length) (k : Int) (h32 : 32 ≤ k) (h126 : k ≤ 126) :
    edit_field_key buffer cursor (some k) =
      (buffer.take cursor ++ k.toNat :: buffer.drop cursor, cursor + 1) := by
  simp only [edit_field_key, if_pos (And.intro h32 h126)]
  split_ifs with hge
  · have hcl : cursor = buffer.length := Nat.le_antisymm h hge
    subst hcl
    simp
  · rw [insertIdx_take_drop _ _ _ h]

theorem edit_field_key_left (buffer : List Nat) (cursor : Nat) :
    edit_field_key buffer cursor (some KEY_LEFT) = (buffer, cursor - 1) := by
  simp only [edit_field_key, KEY_LEFT, KEY_RIGHT, KEY_BACKSPACE, KEY_DC]
  norm_num
  omega

theorem edit_field_key_right (buffer : List Nat) (cursor : Nat) :
    edit_field_key buffer cursor (some KEY_RIGHT) =
      (buffer, if cursor < buffer.length then cursor + 1 else cursor) := by
  simp only [edit_field_key, KEY_LEFT, KEY_RIGHT, KEY_BACKSPACE, KEY_DC]
  norm_num

theorem edit_field_key_backspace (buffer : List Nat) (cursor : Nat)
    (h : cursor ≤ buffer.length) :
    edit_field_key buffer cursor (some KEY_BACKSPACE) =
      (buffer.take (cursor - 1) ++ buffer.drop cursor, cursor - 1) := by
  simp only [edit_field_key, KEY_LEFT, KEY_RIGHT, KEY_BACKSPACE, KEY_DC]
  norm_num
  split_ifs with h1 h2
  · rw [List.eraseIdx_eq_take_drop_succ]
    have hd : cursor - 1 + 1 = cursor := by omega
    rw [hd]
  · exfalso
    omega
  · have hc0 : cursor = 0 := by omega
    subst hc0
    simp

theorem edit_field_key_delete (buffer : List Nat) (cursor : Nat)
    (h : cursor ≤ buffer.length) :
    edit_field_key buffer cursor (some KEY_DC) =
      (buffer.take cursor ++ buffer.drop (cursor + 1), cursor) := by
  simp only [edit_field_key, KEY_LEFT, KEY_RIGHT, KEY_BACKSPACE, KEY_DC]
  norm_num
  split_ifs with h1
  · rw [List.eraseIdx_eq_take_drop_succ]
  · have hc : cursor = buffer.length := by omega
    subst hc
    simp

theorem edit_field_key_other (buffer : List Nat) (cursor : Nat) (k : Int)
    (hp : k < 32 ∨ 126 < k) (h1 : k ≠ KEY_LEFT) (h2 : k ≠ KEY_RIGHT)
    (h3 : k ≠ KEY_BACKSPACE) (h4 : k ≠ KEY_DC) :
    edit_field_key buffer cursor (some k) = (buffer, cursor) := by
  simp only [edit_field_key]
  rw [if_neg (by omega), if_neg h1, if_neg h2, if_neg h3, if_neg h4]

/-- C3: for a valid text-field state, each pending key applies exactly one
edit: a printable code 32..=126 is inserted at the cursor (appended when the
cursor is at the end) and the cursor advances by one; move-left decrements
the cursor, saturating at 0; move-right increments it but never past the
length; backspace removes the character before the cursor and moves the
cursor back (no-op at 0); delete-forward removes the character at the cursor
leaving it unchanged; any other code leaves buffer and cursor untouched. -/
theorem edit_field_single_edit (buffer : List Nat) (cursor : Nat)
    (h : cursor ≤ buffer.length) :
    (∀ k : Int, 32 ≤ k → k ≤ 126 →
      edit_field buffer cursor (some k) =
        (buffer.take cursor ++ k.toNat :: buffer.drop cursor, cursor + 1)) ∧
    edit_field buffer cursor (some KEY_LEFT) = (buffer, cursor - 1) ∧
    edit_field buffer cursor (some KEY_RIGHT) =
      (buffer, if cursor < buffer.length then cursor + 1 else cursor) ∧
    edit_field buffer cursor (some KEY_BACKSPACE) =
      (buffer.take (cursor - 1) ++ buffer.drop cursor, cursor - 1) ∧
    edit_field buffer cursor (some KEY_DC) =
      (buffer.take cursor ++ buffer.drop (cursor + 1), cursor) ∧
    (∀ k : Int, (k < 32 ∨ 126 < k) → k ≠ KEY_LEFT → k ≠ KEY_RIGHT →
      k ≠ KEY_BACKSPACE → k ≠ KEY_DC →
      edit_field buffer cursor (some k) = (buffer, cursor)) := by
  refine ⟨fun k h32 h126 => ?_, ?_, ?_, ?_, ?_, fun k hp h1 h2 h3 h4 => ?_⟩ <;>
    rw [edit_field_eq_key _ _ _ h]
  · exact edit_field_key_printable buffer cursor h k h32 h126
  · exact edit_field_key_left buffer cursor
  · exact edit_field_key_right buffer cursor
  · exact edit_field_key_backspace buffer cursor h
  · exact edit_field_key_delete buffer cursor h
  · exact edit_field_key_other buffer cursor k hp h1 h2 h3 h4

/-- Witness for C3: inserting the letter `a` (code 97) into `"plot"` at
cursor 2. -/
theorem edit_field_single_edit_witness :
    2 ≤ (str ("plot")).length ∧
      edit_field (str ("plot")) 2 (some 97) =
        ((str ("plot")).take 2 ++ (97 : Int).toNat :: (str ("plot")).drop 2, 2 + 1) :=
  ⟨by decide, (edit_field_single_edit (str ("plot")) 2 (by decide)).1 97 (by decide)
    (by decide)⟩

theorem edit_field_key_cursor_le (buffer : List Nat) (cursor : Nat)
    (key : Option Int) (h : cursor ≤ buffer.length) :
    (edit_field_key buffer cursor key).2 ≤ (edit_field_key buffer cursor key).1.length := by
  cases key with
  | none => simpa [edit_field_key] using h
  | some k =>
    by_cases hp : 32 ≤ k ∧ k ≤ 126
    · rw [edit_field_key_printable buffer cursor h k hp.1 hp.2]
      simp only [List.length_append, List.length_take, List.length_cons, List.length_drop]
      omega
    · by_cases h1 : k = KEY_LEFT
      · subst h1
        rw [edit_field_key_left]
        simpa using by omega
      · by_cases h2 : k = KEY_RIGHT
        · subst h2
          rw [edit_field_key_right]
          split_ifs with hlt <;> simpa using by omega
        · by_cases h3 : k = KEY_BACKSPACE
          · subst h3
            rw [edit_field_key_backspace buffer cursor h]
            simp only [List.length_append, List.length_take, List.length_drop]
            omega
          · by_cases h4 : k = KEY_DC
            · subst h4
              rw [edit_field_key_delete buffer cursor h]
              simp only [List.length_append, List.length_take, List.length_drop]
              omega
            · rw [edit_field_key_other buffer cursor k (by omega) h1 h2 h3 h4]
              exact h

theorem edit_field_cursor_le (buffer : List Nat) (cursor : Nat) (key : Option Int) :
    (edit_field buffer cursor key).2 ≤ (edit_field buffer cursor key).1.length := by
  unfold edit_field
  apply edit_field_key_cursor_le
  split_ifs <;> omega

theorem applyEdits_cursor_le (keys : List (Option Int)) (buffer : List Nat)
    (cursor : Nat) (h0 : cursor ≤ buffer.length) :
    (applyEdits keys buffer cursor).2 ≤ (applyEdits keys buffer cursor).1.length := by
  induction keys generalizing buffer cursor with
  | nil => exact h0
  | cons k ks ih => exact ih _ _ (edit_field_cursor_le buffer cursor k)

/-- C4: from any initial state, even one whose cursor exceeds the buffer
length, after every `edit_field` call of any finite non-empty sequence of
arbitrary key codes the cursor lies in `[0, len(buffer)]` (the cursor is
re-clamped before any edit is interpreted). -/
theorem cursor_always_in_bounds (buffer : List Nat) (cursor : Nat)
    (keys : List (Option Int)) (h : keys ≠ []) :
    (applyEdits keys buffer cursor).2 ≤ (applyEdits keys buffer cursor).1.length := by
  cases keys with
  | nil => exact absurd rfl h
  | cons k ks =>
    exact applyEdits_cursor_le ks _ _ (edit_field_cursor_le buffer cursor k)

/-- Witness for C4: a backspace applied to `"ab"` with an out-of-range
cursor 5 ends with cursor 1 in a buffer of length 1. -/
theorem cursor_always_in_bounds_witness :
    ([some KEY_BACKSPACE] : List (Option Int)) ≠ [] ∧
      (applyEdits [some KEY_BACKSPACE] (str ("ab")) 5).2 ≤
        (applyEdits [some KEY_BACKSPACE] (str ("ab")) 5).1.length :=
  ⟨by decide, cursor_always_in_bounds (str ("ab")) 5 [some KEY_BACKSPACE] (by decide)⟩

/-- The re-filter loop of `main.rs` lines 433-437: scan the files in index
order (index accumulator `i`) and keep every index whose filename satisfies
`fuzzy_match`. -/
def buildMatches (query : List Nat) : List (List Nat) → Nat → List Nat
  | [], _ => []
  | f :: fs, i =>
    if fuzzy_match query f then i :: buildMatches query fs (i + 1)
    else buildMatches query fs (i + 1)

/-- Model of the `matches` recomputation (`main.rs` lines 427-438): an empty
query keeps every index `0..len`, otherwise the enumerate-and-filter loop
runs. -/
def refilterMatches (files : List (List Nat)) (query : List Nat) : List Nat :=
  if query = [] then List.range files.length
  else buildMatches query files 0

/-- Model of the selection clamp after recomputation (`main.rs` lines
439-444): reset to 0 when nothing matches, clamp to the last match
otherwise. -/
def refilterSelection (ms : List Nat) (selection : Nat) : Nat :=
  if ms = [] then 0
  else if selection ≥ ms.length then ms.length - 1
  else selection

theorem buildMatches_eq (query : List Nat) (files : List (List Nat)) (i : Nat) :
    buildMatches query files i =
      ((List.range files.length).filter
        (fun j => fuzzy_match query (files.getD j []))).map (fun j => j + i) := by
  induction files generalizing i with
  | nil => simp [buildMatches]
  | cons f fs ih =>
    rw [buildMatches, List.length_cons, List.range_succ_eq_map, List.filter_cons]
    simp only [List.getD_cons_zero, List.getD_cons_succ, List.filter_map, List.map_map]
    have hcomp :
        ((fun j => fuzzy_match query ((f :: fs).getD j [])) ∘ Nat.succ) =
          fun j => fuzzy_match query (fs.getD j []) := by
      funext j
      simp
    have harith : ((fun j => j + i) ∘ Nat.succ) = fun j => j + (i + 1) := by
      funext j
      simp only [Function.comp_apply]
      omega
    by_cases hf : fuzzy_match query f = true
    · rw [if_pos hf]
      simp only [hf, if_true, List.map_cons, Nat.zero_add, List.map_map, harith, hcomp, ih]
    · rw [if_neg hf]
      simp only [eq_false_of_ne_true hf, Bool.false_eq_true, if_false, List.map_map,
        harith, hcomp, ih]

/-- C7: whenever the match set is recomputed, the resulting list is exactly
the indices `0..files.length`, kept in increasing source order, whose
filename satisfies the fuzzy matcher against the query (all indices when the
query is empty, since the empty pattern matches everything); and the
subsequent clamp puts the selection into `[0, len(matches))` when the match
set is non-empty and at 0 when it is empty. -/
theorem refilter_matches_and_selection (files : List (List Nat)) (query : List Nat)
    (selection : Nat) :
    refilterMatches files query =
      (List.range files.length).filter (fun j => fuzzy_match query (files.getD j [])) ∧
    (refilterMatches files query ≠ [] →
      refilterSelection (refilterMatches files query) selection <
        (refilterMatches files query).length) ∧
    (refilterMatches files query = [] →
      refilterSelection (refilterMatches files query) selection = 0) := by
  refine ⟨?_, ?_, ?_⟩
  · unfold refilterMatches
    by_cases hq : query = []
    · rw [if_pos hq]
      subst hq
      have : ∀ j ∈ List.range files.length, fuzzy_match [] (files.getD j []) = true :=
        fun j _ => rfl
      rw [List.filter_eq_self.mpr this]
    · rw [if_neg hq, buildMatches_eq]
      simp
  · intro hne
    unfold refilterSelection
    rw [if_neg hne]
    have hlen : 0 < (refilterMatches files query).length := List.length_pos.mpr hne
    split_ifs <;> omega
  · intro he
    unfold refilterSelection
    rw [if_pos he]

/-- Witness for C7: for the source
`["alpha.geojson", "beta.geojson", "gamma_alpha.geojson"]` with pattern
`"ga"`, only index 2 has `g` followed by `a`, so the match set is `[2]`, and
an out-of-range selection 5 is clamped below the match count. -/
theorem refilter_matches_and_selection_witness :
    refilterMatches [str ("alpha.geojson"), str ("beta.geojson"), str ("gamma_alpha.geojson")]
        (str ("ga")) = [2] ∧
      refilterMatches [str ("alpha.geojson"), str ("beta.geojson"), str ("gamma_alpha.geojson")]
        (str ("ga")) ≠ [] ∧
      refilterSelection
          (refilterMatches
            [str ("alpha.geojson"), str ("beta.geojson"), str ("gamma_alpha.geojson")]
            (str ("ga"))) 5 <
        (refilterMatches [str ("alpha.geojson"), str ("beta.geojson"), str ("gamma_alpha.geojson")]
          (str ("ga"))).length :=
  ⟨by decide, by decide,
    (refilter_matches_and_selection
      [str ("alpha.geojson"), str ("beta.geojson"), str ("gamma_alpha.geojson")]
      (str ("ga")) 5).2.1 (by decide)⟩

/-- Application modes (`main.rs` `enum AppMode`). -/
inductive AppMode
  | Navigation
  | EditingFilename
  | Searching
deriving DecidableEq

/-- The suffix test run on Confirm while editing the output filename
(`main.rs` lines 1022-1025): the buffer must end with `.png`, `.jpg`,
`.jpeg` or `.bmp`. -/
def hasAcceptedSuffix (buffer : List Nat) : Bool :=
  (str (".png")).isSuffixOf buffer || (str (".jpg")).isSuffixOf buffer ||
    (str (".jpeg")).isSuffixOf buffer || (str (".bmp")).isSuffixOf buffer

/-- Model of the Enter/Confirm branch of the `EditingFilename` dispatch
(`main.rs` lines 1017-1037): returns the resulting output-name buffer, the
notification line, and the mode (always back to `Navigation`). -/
def confirmFilename (buffer previousBuffer : List Nat) :
    List Nat × List Nat × AppMode :=
  if buffer = [] then
    (previousBuffer, str ("Filename cannot be empty. Reverted."), AppMode.Navigation)
  else if hasAcceptedSuffix buffer = false then
    (previousBuffer, str ("Filename must end with .png, .jpg, .jpeg, or .bmp. Reverted."),
      AppMode.Navigation)
  else
    (buffer, str ("Output filename set to: ") ++ buffer, AppMode.Navigation)

theorem hasAcceptedSuffix_iff (buffer : List Nat) :
    hasAcceptedSuffix buffer = true ↔
      (List.IsSuffix (str (".png")) buffer ∨ List.IsSuffix (str (".jpg")) buffer ∨
        List.IsSuffix (str (".jpeg")) buffer ∨ List.IsSuffix (str (".bmp")) buffer) := by
  simp [hasAcceptedSuffix, List.isSuffixOf_iff_suffix, or_assoc]

/-- C8: pressing Confirm in name-editing mode with a buffer that is empty or
does not end with one of `.png`, `.jpg`, `.jpeg`, `.bmp` reverts the buffer
to its pre-edit value (not cleared), surfaces a non-empty notification, and
returns the mode to browsing; with an accepted suffix the buffer is kept and
the mode returns to browsing. -/
theorem confirm_filename_validation (buffer previousBuffer : List Nat) :
    ((buffer = [] ∨
        ¬(List.IsSuffix (str (".png")) buffer ∨ List.IsSuffix (str (".jpg")) buffer ∨
          List.IsSuffix (str (".jpeg")) buffer ∨ List.IsSuffix (str (".bmp")) buffer)) →
      (confirmFilename buffer previousBuffer).1 = previousBuffer ∧
        (confirmFilename buffer previousBuffer).2.1 ≠ [] ∧
        (confirmFilename buffer previousBuffer).2.2 = AppMode.Navigation) ∧
    ((buffer ≠ [] ∧
        (List.IsSuffix (str (".png")) buffer ∨ List.IsSuffix (str (".jpg")) buffer ∨
          List.IsSuffix (str (".jpeg")) buffer ∨ List.IsSuffix (str (".bmp")) buffer)) →
      (confirmFilename buffer previousBuffer).1 = buffer ∧
        (confirmFilename buffer previousBuffer).2.2 = AppMode.Navigation) := by
  constructor
  · rintro (he | hs)
    · subst he
      unfold confirmFilename
      rw [if_pos rfl]
      exact ⟨rfl, (by decide : str ("Filename cannot be empty. Reverted.") ≠ []), rfl⟩
    · unfold confirmFilename
      by_cases he : buffer = []
      · rw [if_pos he]
        exact ⟨rfl, (by decide : str ("Filename cannot be empty. Reverted.") ≠ []), rfl⟩
      · rw [if_neg he, if_pos]
        · exact ⟨rfl,
            (by decide :
              str ("Filename must end with .png, .jpg, .jpeg, or .bmp. Reverted.") ≠ []),
            rfl⟩
        · exact Bool.eq_false_iff.mpr
            (fun h => hs ((hasAcceptedSuffix_iff buffer).mp h))
  · rintro ⟨he, hs⟩
    unfold confirmFilename
    rw [if_neg he, if_neg]
    · exact ⟨rfl, rfl⟩
    · have ht : hasAcceptedSuffix buffer = true := (hasAcceptedSuffix_iff buffer).mpr hs
      simp [ht]

/-- Witness for C8, the end-to-end scenario: buffer `"plot"` (no accepted
suffix) with prior value `"combined_plot.png"` is reverted, a notification
is produced, and the mode returns to browsing. -/
theorem confirm_filename_validation_witness :
    (str ("plot") = [] ∨
        ¬(List.IsSuffix (str (".png")) (str ("plot")) ∨
          List.IsSuffix (str (".jpg")) (str ("plot")) ∨
          List.IsSuffix (str (".jpeg")) (str ("plot")) ∨
          List.IsSuffix (str (".bmp")) (str ("plot")))) ∧
      ((confirmFilename (str ("plot")) (str ("combined_plot.png"))).1 =
          str ("combined_plot.png") ∧
        (confirmFilename (str ("plot")) (str ("combined_plot.png"))).2.1 ≠ [] ∧
        (confirmFilename (str ("plot")) (str ("combined_plot.png"))).2.2 =
          AppMode.Navigation) :=
  ⟨by decide,
    (confirm_filename_validation (str ("plot")) (str ("combined_plot.png"))).1 (by decide)⟩

/-- Number of bytes of the UTF-8 encoding of one Unicode scalar value (how a
Rust `String` stores a `char`). -/
def utf8Size (c : Nat) : Nat :=
  if c < 128 then 1 else if c < 2048 then 2 else if c < 65536 then 3 else 4

/-- Byte offset inside the UTF-8 encoding of `buffer` that corresponds to
character index `cursor`. -/
def byteIdx (buffer : List Nat) (cursor : Nat) : Nat :=
  ((buffer.take cursor).map utf8Size).sum

theorem clamp_eq_min (cursor len : Nat) :
    (if cursor > len then len else cursor) = min cursor len := by
  split_ifs <;> omega

theorem edit_field_mem (b : List Nat) (c : Nat) (k : Int) (x : Nat)
    (hx : x ∈ (edit_field b c (some k)).1) : x ∈ b ∨ (32 ≤ x ∧ x ≤ 126) := by
  rw [edit_field, clamp_eq_min] at hx
  have hmle : min c b.length ≤ b.length := Nat.min_le_right c b.length
  by_cases hp : 32 ≤ k ∧ k ≤ 126
  · rw [edit_field_key_printable b _ hmle k hp.1 hp.2] at hx
    simp only [List.mem_append, List.mem_cons] at hx
    rcases hx with hx | hx | hx
    · exact Or.inl (List.take_subset _ _ hx)
    · subst hx
      exact Or.inr ⟨by omega, by omega⟩
    · exact Or.inl (List.drop_subset _ _ hx)
  · by_cases h1 : k = KEY_LEFT
    · subst h1
      rw [edit_field_key_left] at hx
      exact Or.inl hx
    · by_cases h2 : k = KEY_RIGHT
      · subst h2
        rw [edit_field_key_right] at hx
        exact Or.inl hx
      · by_cases h3 : k = KEY_BACKSPACE
        · subst h3
          rw [edit_field_key_backspace b _ hmle] at hx
          rcases List.mem_append.mp hx with hx | hx
          · exact Or.inl (List.take_subset _ _ hx)
          · exact Or.inl (List.drop_subset _ _ hx)
        · by_cases h4 : k = KEY_DC
          · subst h4
            rw [edit_field_key_delete b _ hmle] at hx
            rcases List.mem_append.mp hx with hx | hx
            · exact Or.inl (List.take_subset _ _ hx)
            · exact Or.inl (List.drop_subset _ _ hx)
          · rw [edit_field_key_other b _ k (by omega) h1 h2 h3 h4] at hx
            exact Or.inl hx

theorem edit_field_ascii_step (b : List Nat) (c : Nat) (key : Option Int)
    (h : ∀ x ∈ b, x < 128) : ∀ x ∈ (edit_field b c key).1, x < 128 := by
  intro x hx
  cases key with
  | none =>
    rw [edit_field] at hx
    exact h x hx
  | some k =>
    rcases edit_field_mem b c k x hx with hxb | ⟨_, hle⟩
    · exact h x hxb
    · omega

theorem applyEdits_ascii (keys : List (Option Int)) (b : List Nat) (c : Nat)
    (h : ∀ x ∈ b, x < 128) : ∀ x ∈ (applyEdits keys b c).1, x < 128 := by
  induction keys generalizing b c with
  | nil => exact h
  | cons k ks ih => exact ih _ _ (edit_field_ascii_step b c k h)

theorem sum_utf8Size_of_ascii (l : List Nat) (h : ∀ x ∈ l, x < 128) :
    (l.map utf8Size).sum = l.length := by
  induction l with
  | nil => rfl
  | cons a as ih =>
    have ha : utf8Size a = 1 := if_pos (h a (List.mem_cons_self a as))
    simp only [List.map_cons, List.sum_cons, ha, List.length_cons]
    rw [ih (fun x hx => h x (List.mem_cons_of_mem a hx))]
    omega

/-- C10 (implicit): `edit_field` only ever inserts ASCII codes 32..=126 (any
character in the output buffer was in the input buffer or is such a code);
every key outside 32..=126 and outside the left/right/backspace/delete set
leaves the buffer unchanged and moves the cursor only by the initial clamp
into `[0, len]`; an all-ASCII buffer stays all-ASCII under any sequence of
`edit_field` calls; and for an all-ASCII buffer the byte offset of the
cursor coincides with its character index. -/
theorem edit_field_ascii_invariant (b : List Nat) (c : Nat) :
    (∀ k : Int, ∀ x ∈ (edit_field b c (some k)).1, x ∈ b ∨ (32 ≤ x ∧ x ≤ 126)) ∧
    (∀ k : Int, (k < 32 ∨ 126 < k) → k ≠ KEY_LEFT → k ≠ KEY_RIGHT →
      k ≠ KEY_BACKSPACE → k ≠ KEY_DC →
      edit_field b c (some k) = (b, min c b.length)) ∧
    (∀ keys : List (Option Int), (∀ x ∈ b, x < 128) →
      ∀ x ∈ (applyEdits keys b c).1, x < 128) ∧
    ((∀ x ∈ b, x < 128) → c ≤ b.length → byteIdx b c = c) := by
  refine ⟨fun k x hx => edit_field_mem b c k x hx, fun k hp h1 h2 h3 h4 => ?_,
    fun keys h => applyEdits_ascii keys b c h, fun h hc => ?_⟩
  · rw [edit_field, clamp_eq_min,
      edit_field_key_other b _ k hp h1 h2 h3 h4]
  · rw [byteIdx, sum_utf8Size_of_ascii _ (fun x hx => h x (List.take_subset _ _ hx)),
      List.length_take]
    omega

/-- Witness for C10: the Enter key (code 10) leaves the buffer `"ab"`
untouched and only clamps the out-of-range cursor 5 to the length 2, and the
byte offset of cursor 2 in the ASCII buffer `"ab"` is 2. -/
theorem edit_field_ascii_invariant_witness :
    ((10 : Int) < 32 ∨ (126 : Int) < 10) ∧
      edit_field (str ("ab")) 5 (some 10) = (str ("ab"), min 5 (str ("ab")).length) ∧
      byteIdx (str ("ab")) 2 = 2 :=
  ⟨Or.inl (by decide),
    (edit_field_ascii_invariant (str ("ab")) 5).2.1 10 (Or.inl (by decide)) (by decide)
      (by decide) (by decide) (by decide),
    (edit_field_ascii_invariant (str ("ab")) 2).2.2.2 (by decide) (by decide)⟩
